import Mathlib

/-!
Verification of the Trading_Backtester execution engine (src/v11/trading_backtester/engine.py,
src/v11/trading_backtester/events.py) and the replay cursor (src/v9/trading_backtester/replay.py).

Modelling conventions:
* Python floats are modelled as exact rationals (`ℚ`); the claims under study are
  algebraic identities and inequalities, not floating-point roundoff statements.
* Bar/signal timestamps are modelled as integers (`Int`); the engine only ever
  compares them with `≤`/`<`.
* The pandas `DataFrame` iterated by `backtest_with_events` is modelled as a
  `List Bar` (one row per bar, in order, with the `volume` column optional).
* Python's `sorted(signals, key=lambda x: x[0])` is a stable sort by time; it is
  modelled by a stable insertion sort (`sortSignals`), which produces the same
  list as any stable sort by the same key.
* The wire conversion `to_wire` only repackages each event's fields into a
  time/type/payload dictionary; the returned event log is modelled by the
  internal event list itself, which carries exactly the same information.
-/

namespace TradingBacktester

/-- One OHLCV row of the input price series (a pandas DataFrame row in the source).
`open_` mirrors the `open` column (the bare name is a Lean keyword). -/
structure Bar where
  time : Int
  open_ : ℚ
  high : ℚ
  low : ℚ
  close : ℚ
  volume : Option ℚ
deriving Repr, DecidableEq, Inhabited

/-- One signal tuple `(time, side, price)` as consumed by the engine. -/
structure Signal where
  time : Int
  side : String
  price : ℚ
deriving Repr, DecidableEq

/-- `BacktestConfig` from engine.py (field for field). -/
structure BacktestConfig where
  initial_equity : ℚ := 100000
  risk_per_trade : ℚ := 1/100
  stop_loss_pct : ℚ := 1/100
  take_profit_pct : ℚ := 2/100
  trailing_pct : ℚ := 0
  allow_reverse : Bool := true
  entry_slippage_bps : ℚ := 0
  exit_slippage_bps : ℚ := 0
  entry_latency_bars : Int := 0
  exit_latency_bars : Int := 0
deriving Repr, DecidableEq

/-- `Trade` from engine.py. -/
structure Trade where
  entry_time : Int
  side : String
  entry_price : ℚ
  size : ℚ
  exit_time : Int
  exit_price : ℚ
  pnl : ℚ
  reason : String
deriving Repr, DecidableEq

/-- The tagged event variants of events.py (BarEvent, SignalEvent, FillEvent,
EquityEvent, TradeClosedEvent), with the same payload fields. -/
inductive Event where
  | bar (time : Int) (index : Nat) (open_ high low close : ℚ) (volume : Option ℚ)
  | signal (time : Int) (side : String) (price : ℚ) (source : String)
  | fill (time : Int) (action : String) (side : Option String) (price : ℚ)
      (intended_price : Option ℚ) (slippage_bps : ℚ) (latency_bars : Int)
      (submitted_time : Option Int) (qty : ℚ) (reason : String)
  | equityEv (time : Int) (equity : ℚ)
  | tradeClosed (time : Int) (side : String) (entry_price exit_price qty pnl pnl_pct : ℚ)
      (reason : String)
deriving Repr, DecidableEq

/-- The `pending_entry` dictionary of the engine. -/
structure PendingEntry where
  side : String
  intended_price : ℚ
  reason : String
  latency : Int
  remaining : Int
  submitted_time : Int
deriving Repr, DecidableEq

/-- The `pending_exit` dictionary of the engine. -/
structure PendingExit where
  intended_price : ℚ
  reason : String
  latency : Int
  remaining : Int
  submitted_time : Int
deriving Repr, DecidableEq

/-- The mutable locals of `backtest_with_events` (equity, curve, trades,
internal_events, the position fields, and the two pending-order slots).
`side = none` is Python's `side is None` (no open position). -/
structure EngineState where
  equity : ℚ
  curve : List ℚ
  trades : List Trade
  events : List Event
  side : Option String
  entry_time : Int
  entry_price : ℚ
  size : ℚ
  stop : ℚ
  take : ℚ
  best : ℚ
  pending_entry : Option PendingEntry
  pending_exit : Option PendingExit
deriving Repr, DecidableEq

/-- `_pos_pnl` from engine.py. -/
def _pos_pnl (side : String) (entry exitp size : ℚ) : ℚ :=
  if side = "BUY" then (exitp - entry) * size else (entry - exitp) * size

/-- Python's `str.upper()` on the engine's ASCII side strings. (`String.toUpper` is
implemented through a position-based auxiliary that the kernel cannot unfold, so the
equivalent character-wise map is used.) -/
def strUpper (s : String) : String := ⟨s.data.map Char.toUpper⟩

/-- `_apply_slippage` from engine.py. -/
def _apply_slippage (price : ℚ) (action_side : String) (bps : ℚ) : ℚ :=
  if bps ≤ 0 then price
  else
    let s := bps / 10000
    if strUpper action_side = "BUY" then price * (1 + s) else price * (1 - s)

/-- `_risk_size` from engine.py (the `1e-9` clamp is the exact rational `1/10^9`). -/
def _risk_size (cfg : BacktestConfig) (eq price : ℚ) : ℚ :=
  let risk_dollars := eq * cfg.risk_per_trade
  let sl_dist := max (1/1000000000) (cfg.stop_loss_pct * price)
  risk_dollars / sl_dist

/-- The `emit` closure: append the event iff `emit_events` is set. -/
def emitE (emitEvents : Bool) (st : EngineState) (ev : Event) : EngineState :=
  if emitEvents then { st with events := st.events ++ [ev] } else st

/-- `open_pos` from engine.py: install the position fields and emit the OPEN fill. -/
def open_pos (cfg : BacktestConfig) (emitEvents : Bool) (st : EngineState)
    (fill_time : Int) (s : String) (executed_price : ℚ) (eq : ℚ)
    (intended_price : Option ℚ) (slippage_bps : ℚ) (latency_bars : Int)
    (submitted_time : Option Int) (reason : String) : EngineState :=
  let size := _risk_size cfg eq executed_price
  let sl_dist := cfg.stop_loss_pct * executed_price
  let stop := if s = "BUY" then executed_price - sl_dist else executed_price + sl_dist
  let take := if s = "BUY" then executed_price + cfg.take_profit_pct * executed_price
              else executed_price - cfg.take_profit_pct * executed_price
  let st := { st with side := some s, entry_time := fill_time, entry_price := executed_price,
                      size := size, stop := stop, take := take, best := executed_price }
  emitE emitEvents st (Event.fill fill_time "OPEN" (some s) executed_price intended_price
    slippage_bps latency_bars submitted_time size reason)

/-- `close_pos` from engine.py: realize pnl, record the trade, emit TradeClosed and
CLOSE-fill events, then clear the position fields. A no-op when flat. -/
def close_pos (cfg : BacktestConfig) (emitEvents : Bool) (st : EngineState)
    (fill_time : Int) (executed_price : ℚ) (reason : String)
    (intended_price : Option ℚ) (slippage_bps : ℚ) (latency_bars : Int)
    (submitted_time : Option Int) : EngineState :=
  match st.side with
  | none => st
  | some s =>
    let pnl := _pos_pnl s st.entry_price executed_price st.size
    let equity := st.equity + pnl
    let pnl_pct := if equity = 0 then 0 else pnl / equity
    let tr : Trade := ⟨st.entry_time, s, st.entry_price, st.size, fill_time, executed_price,
                       pnl, reason⟩
    let st1 := { st with equity := equity, trades := st.trades ++ [tr] }
    let st2 := emitE emitEvents st1
      (Event.tradeClosed fill_time s st.entry_price executed_price st.size pnl pnl_pct reason)
    let st3 := emitE emitEvents st2
      (Event.fill fill_time "CLOSE" (some s) executed_price intended_price slippage_bps
        latency_bars submitted_time st.size reason)
    { st3 with side := none, entry_time := 0, entry_price := 0, size := 0, stop := 0,
               take := 0, best := 0 }

/-- Step 2 of the per-bar loop: execute or tick the pending exit (engine.py lines 197-214). -/
def pendingExitStep (cfg : BacktestConfig) (emitEvents : Bool) (t : Int) (o : ℚ)
    (st : EngineState) : EngineState :=
  match st.pending_exit, st.side with
  | some pe, some s =>
    if pe.remaining ≤ 0 then
      let base_price := if pe.latency > 0 then o else pe.intended_price
      let action_side := if s = "BUY" then "SELL" else "BUY"
      let exec_price := _apply_slippage base_price action_side cfg.exit_slippage_bps
      let st := close_pos cfg emitEvents st t exec_price pe.reason (some pe.intended_price)
        cfg.exit_slippage_bps pe.latency (some pe.submitted_time)
      { st with pending_exit := none }
    else
      { st with pending_exit := some { pe with remaining := pe.remaining - 1 } }
  | _, _ => st

/-- Step 3 of the per-bar loop: execute or tick the pending entry (engine.py lines 217-234). -/
def pendingEntryStep (cfg : BacktestConfig) (emitEvents : Bool) (t : Int) (o : ℚ)
    (st : EngineState) : EngineState :=
  match st.pending_entry, st.side with
  | some pe, none =>
    if pe.remaining ≤ 0 then
      let base_price := if pe.latency > 0 then o else pe.intended_price
      let exec_price := _apply_slippage base_price pe.side cfg.entry_slippage_bps
      let fill_time := if pe.latency > 0 then t else pe.submitted_time
      let st := open_pos cfg emitEvents st fill_time pe.side exec_price st.equity
        (some pe.intended_price) cfg.entry_slippage_bps pe.latency (some pe.submitted_time)
        pe.reason
      { st with pending_entry := none }
    else
      { st with pending_entry := some { pe with remaining := pe.remaining - 1 } }
  | _, _ => st

/-- The body of the signal-consumption loop for one signal (engine.py lines 238-273). -/
def handleSignal (cfg : BacktestConfig) (emitEvents : Bool) (t : Int) (c : ℚ)
    (sig : Signal) (st : EngineState) : EngineState :=
  let sside := strUpper sig.side
  let sprice := sig.price
  let st := emitE emitEvents st (Event.signal sig.time sside sprice "strategy")
  match st.side with
  | none =>
    match st.pending_entry with
    | none =>
      { st with pending_entry := some ⟨sside, sprice, "Signal", cfg.entry_latency_bars,
          cfg.entry_latency_bars, sig.time⟩ }
    | some _ => st
  | some s =>
    if cfg.allow_reverse ∧ s ≠ sside then
      let st := match st.pending_exit with
        | none => { st with pending_exit := some ⟨c, "ReverseSignal", cfg.exit_latency_bars,
            cfg.exit_latency_bars, t⟩ }
        | some _ => st
      match st.pending_entry with
      | none => { st with pending_entry := some ⟨sside, sprice, "ReverseSignal",
          cfg.entry_latency_bars, cfg.entry_latency_bars, sig.time⟩ }
      | some _ => st
    else st

/-- Step 4 of the per-bar loop: consume every remaining signal with time ≤ the bar time
(engine.py lines 237-273). The remaining-signal list replaces the `sig_i` index. -/
def consumeSignals (cfg : BacktestConfig) (emitEvents : Bool) (t : Int) (c : ℚ) :
    List Signal → EngineState → List Signal × EngineState
  | [], st => ([], st)
  | sig :: rest, st =>
    if sig.time ≤ t then
      consumeSignals cfg emitEvents t c rest (handleSignal cfg emitEvents t c sig st)
    else (sig :: rest, st)

/-- Step 5 of the per-bar loop: best-price tracking and stop/take/trailing checks
(engine.py lines 276-309). -/
def exitChecks (cfg : BacktestConfig) (t : Int) (h l : ℚ) (st : EngineState) : EngineState :=
  match st.side, st.pending_exit with
  | some s, none =>
    let best := if s = "BUY" then max st.best h else min st.best l
    let st := { st with best := best }
    let hit_stop : Bool := if s = "BUY" then decide (l ≤ st.stop) else decide (st.stop ≤ h)
    let hit_take : Bool := if s = "BUY" then decide (st.take ≤ h) else decide (l ≤ st.take)
    if hit_stop then
      { st with pending_exit := some ⟨st.stop, "StopLoss", cfg.exit_latency_bars,
          cfg.exit_latency_bars, t⟩ }
    else if hit_take then
      { st with pending_exit := some ⟨st.take, "TakeProfit", cfg.exit_latency_bars,
          cfg.exit_latency_bars, t⟩ }
    else if 0 < cfg.trailing_pct then
      let trail_dist := cfg.trailing_pct * st.entry_price
      let trail := if s = "BUY" then best - trail_dist else best + trail_dist
      let hit_trail : Bool := if s = "BUY" then decide (l ≤ trail) else decide (trail ≤ h)
      if hit_trail then
        { st with pending_exit := some ⟨trail, "TrailingStop", cfg.exit_latency_bars,
            cfg.exit_latency_bars, t⟩ }
      else st
    else st
  | _, _ => st

/-- One iteration of the main `for i, row in df.iterrows()` loop (all seven steps of one bar,
ending with the equity-curve append and the Equity event). -/
def processBar (cfg : BacktestConfig) (emitEvents : Bool) (p : List Signal × EngineState)
    (i : Nat) (bar : Bar) : List Signal × EngineState :=
  let t := bar.time
  let o := bar.open_
  let st := emitE emitEvents p.2 (Event.bar t i o bar.high bar.low bar.close bar.volume)
  let st := pendingExitStep cfg emitEvents t o st
  let st := pendingEntryStep cfg emitEvents t o st
  let r := consumeSignals cfg emitEvents t bar.close p.1 st
  let st := exitChecks cfg t bar.high bar.low r.2
  let st := { st with curve := st.curve ++ [st.equity] }
  let st := emitE emitEvents st (Event.equityEv t st.equity)
  (r.1, st)

/-- The main loop over the bar series, carrying the enumeration index. -/
def runLoop (cfg : BacktestConfig) (emitEvents : Bool) :
    List Signal → List Bar → Nat → EngineState → List Signal × EngineState
  | sigs, [], _, st => (sigs, st)
  | sigs, b :: rest, i, st =>
    let p := processBar cfg emitEvents (sigs, st) i b
    runLoop cfg emitEvents p.1 rest (i + 1) p.2

/-- The initial engine state (all position fields cleared, equity = initial_equity). -/
def initState (cfg : BacktestConfig) : EngineState :=
  { equity := cfg.initial_equity, curve := [], trades := [], events := [], side := none,
    entry_time := 0, entry_price := 0, size := 0, stop := 0, take := 0, best := 0,
    pending_entry := none, pending_exit := none }

/-- Stable insertion of a signal by time (equal keys keep their original relative order). -/
def insertSignal (sig : Signal) : List Signal → List Signal
  | [] => [sig]
  | y :: ys => if y.time ≤ sig.time then y :: insertSignal sig ys else sig :: y :: ys

/-- Python's `sorted(signals, key=lambda x: x[0])`: a stable sort by signal time. -/
def sortSignals (signals : List Signal) : List Signal :=
  signals.foldl (fun acc s => insertSignal s acc) []

/-- `backtest_with_events` from engine.py: sort the signals, run the per-bar loop, then
force-close any position remaining after the last bar (reason "EndOfData") and patch the
final equity-curve entry, appending one more Equity event. -/
def backtest_with_events (bars : List Bar) (signals : List Signal) (cfg : BacktestConfig)
    (emitEvents : Bool := true) : List Trade × List ℚ × List Event :=
  let sigs := sortSignals signals
  let st := (runLoop cfg emitEvents sigs bars 0 (initState cfg)).2
  match st.side, bars.getLast? with
  | some s, some lastBar =>
    let base_price := lastBar.close
    let action_side := if s = "BUY" then "SELL" else "BUY"
    let exec_price := _apply_slippage base_price action_side cfg.exit_slippage_bps
    let st := close_pos cfg emitEvents st lastBar.time exec_price "EndOfData"
      (some base_price) cfg.exit_slippage_bps 0 (some lastBar.time)
    let st := { st with curve := st.curve.dropLast ++ [st.equity] }
    let st := emitE emitEvents st (Event.equityEv lastBar.time st.equity)
    (st.trades, st.curve, st.events)
  | _, _ => (st.trades, st.curve, st.events)

/-- `backtest` from engine.py (the legacy entry point without events). -/
def backtest (bars : List Bar) (signals : List Signal) (cfg : BacktestConfig) :
    List Trade × List ℚ :=
  let r := backtest_with_events bars signals cfg false
  (r.1, r.2.1)

/-! ### Replay cursor (src/v9/trading_backtester/replay.py)

The replayed events are opaque to `seek`/`step`, so the stream is parameterized by the
event type. The cursor is a Python int, modelled as `Int`. -/

/-- `EventStream` from replay.py: the event list plus the replay cursor. -/
structure EventStream (α : Type) where
  events : List α
  cursor : Int

/-- `EventStream.max_index`: `max(0, len(self.events) - 1)`. -/
def EventStream.max_index (s : EventStream α) : Int :=
  max 0 ((s.events.length : Int) - 1)

/-- `EventStream.seek`: clamp the requested index into `[0, max_index]`
(the cursor stays 0 on an empty list). -/
def EventStream.seek (s : EventStream α) (index : Int) : EventStream α :=
  if s.events.isEmpty then { s with cursor := 0 }
  else { s with cursor := max 0 (min index s.max_index) }

/-- `EventStream.step`: relative move, `seek(cursor + n)`. -/
def EventStream.step (s : EventStream α) (n : Int) : EventStream α :=
  s.seek (s.cursor + n)

/-! ### Observations of a run, used to state the claims -/

/-- Sum of the per-trade pnl of a trade list. -/
def sumPnl (trades : List Trade) : ℚ := (trades.map Trade.pnl).sum

/-- The subsequence of fill actions ("OPEN"/"CLOSE") of an event log. -/
def fillActions (events : List Event) : List String :=
  events.filterMap fun e => match e with
    | .fill _ a _ _ _ _ _ _ _ _ => some a
    | _ => none

/-- The subsequence of equity values carried by the Equity events of a log. -/
def equityValues (events : List Event) : List ℚ :=
  events.filterMap fun e => match e with
    | .equityEv _ q => some q
    | _ => none

/-- `(time, price)` of every OPEN fill of a log, in order. -/
def openFills (events : List Event) : List (Int × ℚ) :=
  events.filterMap fun e => match e with
    | .fill t a _ p _ _ _ _ _ _ => if a = "OPEN" then some (t, p) else none
    | _ => none

/-- The `side` field of every OPEN fill of a log, in order. -/
def openFillSides (events : List Event) : List (Option String) :=
  events.filterMap fun e => match e with
    | .fill _ a s _ _ _ _ _ _ _ => if a = "OPEN" then some s else none
    | _ => none

/-- The `reason` of every TradeClosed event of a log, in order. -/
def tradeClosedReasons (events : List Event) : List String :=
  events.filterMap fun e => match e with
    | .tradeClosed _ _ _ _ _ _ _ r => some r
    | _ => none

/-- The `side` field of every Signal event of a log, in order. -/
def signalSides (events : List Event) : List String :=
  events.filterMap fun e => match e with
    | .signal _ s _ _ => some s
    | _ => none

/-- A bar whose four prices coincide, for concrete runs. -/
def flatBar (t : Int) (p : ℚ) : Bar := ⟨t, p, p, p, p, none⟩

/-- The default engine configuration (every `BacktestConfig` field at its default). -/
def defaultCfg : BacktestConfig := {}

/-- The reversal-scenario alphabet: "RC" for a TradeClosed with reason "ReverseSignal",
"OS" for an OPEN fill of side SELL, nothing for every other event. -/
def reducedReverse (e : Event) : Option String :=
  match e with
  | .tradeClosed _ _ _ _ _ _ _ reason => if reason = "ReverseSignal" then some "RC" else none
  | .fill _ action side _ _ _ _ _ _ _ =>
      if action = "OPEN" ∧ side = some "SELL" then some "OS" else none
  | _ => none

/-- Strict OPEN/CLOSE alternation of a fill-action word, starting from position state `b`
(`false` = flat, `true` = a position is open): from flat the next fill must be an OPEN,
from open it must be a CLOSE. -/
def altOk : Bool → List String → Bool
  | _, [] => true
  | false, a :: rest => a == "OPEN" && altOk true rest
  | true, a :: rest => a == "CLOSE" && altOk false rest

/-- The position state after scanning a fill-action word that satisfies `altOk`:
each fill toggles the open/flat state. -/
def parityAfter : Bool → List String → Bool
  | b, [] => b
  | b, _ :: rest => parityAfter (!b) rest

/-! ### Invariant predicates and auxiliary states used by the proofs -/

/-! ### A delta relation for the sub-steps of one bar

`StepRel t st st'` records everything the bar-level invariants need about one sub-step of
the per-bar processing (steps 1-5 of the loop body): the curve is untouched, the
difference `equity - sumPnl trades` is constant (equity moves only when a trade is
recorded, by exactly its pnl), every appended trade exits at the current bar time `t`,
and the appended events contain no Equity event and extend the fill word consistently
with the open/flat toggle. -/
def StepRel (t : Int) (st st' : EngineState) : Prop :=
  st'.curve = st.curve ∧
  st'.equity - sumPnl st'.trades = st.equity - sumPnl st.trades ∧
  (∃ new, st'.trades = st.trades ++ new ∧ ∀ tr ∈ new, tr.exit_time = t) ∧
  (∃ ds, st'.events = st.events ++ ds ∧ equityValues ds = [] ∧
    altOk st.side.isSome (fillActions ds) = true ∧
    parityAfter st.side.isSome (fillActions ds) = st'.side.isSome)

/-- Steps 1-5 of one bar iteration: everything `processBar` does before appending the
equity-curve entry and the Equity event. -/
def barCore (cfg : BacktestConfig) (sigs : List Signal) (st : EngineState) (i : Nat)
    (b : Bar) : EngineState :=
  exitChecks cfg b.time b.high b.low
    (consumeSignals cfg true b.time b.close sigs
      (pendingEntryStep cfg true b.time b.open_
        (pendingExitStep cfg true b.time b.open_
          (emitE true st (Event.bar b.time i b.open_ b.high b.low b.close b.volume))))).2

/-- The loop invariant that does not depend on the order of the bar timestamps:
`done` is the list of bars already processed. -/
structure CoreInv (cfg : BacktestConfig) (done : List Bar) (st : EngineState) : Prop where
  curve_len : st.curve.length = done.length
  eq_inv : st.equity = cfg.initial_equity + sumPnl st.trades
  trades_time : ∀ tr ∈ st.trades, ∃ x ∈ done, tr.exit_time = x.time
  alt : altOk false (fillActions st.events) = true
  parity : parityAfter false (fillActions st.events) = st.side.isSome
  equity_vals : equityValues st.events = st.curve

/-- The per-index equity-continuity invariant: every already-appended curve entry equals
the initial equity plus the pnl of the trades closed at or before that bar. Preserved
only along strictly increasing bar timestamps. -/
def CurveSpec (cfg : BacktestConfig) (done : List Bar) (st : EngineState) : Prop :=
  ∀ i, i < done.length →
    st.curve.getD i 0 = cfg.initial_equity +
      sumPnl (st.trades.filter fun tr => decide (tr.exit_time ≤ (done.getD i default).time))

/-- Tail invariant once all signals are consumed: no pending entry, and any pending exit
does not carry reason "ReverseSignal". -/
def TailInv (st : EngineState) : Prop :=
  st.pending_entry = none ∧ ∀ pe, st.pending_exit = some pe → pe.reason ≠ "ReverseSignal"

/-- A sub-step of the signal-free tail: assuming `TailInv`, it preserves it and appends
only events that the reversal alphabet `reducedReverse` ignores. -/
def TailRel (st st' : EngineState) : Prop :=
  TailInv st →
    TailInv st' ∧ ∃ ds, st'.events = st.events ++ ds ∧ ds.filterMap reducedReverse = []

/-- The trade appended by the forced end-of-data close. -/
def eodTrade (cfg : BacktestConfig) (stL : EngineState) (s : String) (lastBar : Bar) : Trade :=
  ⟨stL.entry_time, s, stL.entry_price, stL.size, lastBar.time,
    _apply_slippage lastBar.close (if s = "BUY" then "SELL" else "BUY") cfg.exit_slippage_bps,
    _pos_pnl s stL.entry_price
      (_apply_slippage lastBar.close (if s = "BUY" then "SELL" else "BUY")
        cfg.exit_slippage_bps) stL.size,
    "EndOfData"⟩

/-- The engine state after bar 0 of the reversal scenario (zero latencies): flat, BUY
entry pending. -/
def revST1 (b0 : Bar) (ta : Int) (p1 : ℚ) (cfg : BacktestConfig) : EngineState :=
  { equity := cfg.initial_equity, curve := [cfg.initial_equity], trades := [],
    events := [Event.bar b0.time 0 b0.open_ b0.high b0.low b0.close b0.volume,
               Event.signal ta "BUY" p1 "strategy",
               Event.equityEv b0.time cfg.initial_equity],
    side := none, entry_time := 0, entry_price := 0, size := 0, stop := 0, take := 0,
    best := 0, pending_entry := some ⟨"BUY", p1, "Signal", 0, 0, ta⟩, pending_exit := none }

/-- The engine state after bar 1 of the reversal scenario: BUY position open, reversal
exit and entry scheduled by the SELL signal. -/
def revST2 (b0 b1 : Bar) (ta : Int) (p1 p2 : ℚ) (cfg : BacktestConfig) : EngineState :=
  let exec1 := _apply_slippage p1 "BUY" cfg.entry_slippage_bps
  let size1 := _risk_size cfg cfg.initial_equity exec1
  { equity := cfg.initial_equity, curve := [cfg.initial_equity, cfg.initial_equity],
    trades := [],
    events := (revST1 b0 ta p1 cfg).events ++
      [Event.bar b1.time 1 b1.open_ b1.high b1.low b1.close b1.volume,
       Event.fill ta "OPEN" (some "BUY") exec1 (some p1) cfg.entry_slippage_bps 0 (some ta)
         size1 "Signal",
       Event.signal b1.time "SELL" p2 "strategy",
       Event.equityEv b1.time cfg.initial_equity],
    side := some "BUY", entry_time := ta, entry_price := exec1, size := size1,
    stop := exec1 - cfg.stop_loss_pct * exec1, take := exec1 + cfg.take_profit_pct * exec1,
    best := exec1,
    pending_entry := some ⟨"SELL", p2, "ReverseSignal", 0, 0, b1.time⟩,
    pending_exit := some ⟨b1.close, "ReverseSignal", 0, 0, b1.time⟩ }

/-- The engine state of bar 2 of the reversal scenario after its pending exit and pending
entry have executed (steps 1-3): old position closed with reason "ReverseSignal", new
SELL position open, both pending slots empty. -/
def revMID2 (b0 b1 b2 : Bar) (ta : Int) (p1 p2 : ℚ) (cfg : BacktestConfig) : EngineState :=
  let exec1 := _apply_slippage p1 "BUY" cfg.entry_slippage_bps
  let size1 := _risk_size cfg cfg.initial_equity exec1
  let exec2 := _apply_slippage b1.close "SELL" cfg.exit_slippage_bps
  let pnl2 := _pos_pnl "BUY" exec1 exec2 size1
  let eq2 := cfg.initial_equity + pnl2
  let exec3 := _apply_slippage p2 "SELL" cfg.entry_slippage_bps
  let size2 := _risk_size cfg eq2 exec3
  { equity := eq2, curve := [cfg.initial_equity, cfg.initial_equity],
    trades := [⟨ta, "BUY", exec1, size1, b2.time, exec2, pnl2, "ReverseSignal"⟩],
    events := (revST2 b0 b1 ta p1 p2 cfg).events ++
      [Event.bar b2.time 2 b2.open_ b2.high b2.low b2.close b2.volume,
       Event.tradeClosed b2.time "BUY" exec1 exec2 size1 pnl2
         (if eq2 = 0 then 0 else pnl2 / eq2) "ReverseSignal",
       Event.fill b2.time "CLOSE" (some "BUY") exec2 (some b1.close) cfg.exit_slippage_bps
         0 (some b1.time) size1 "ReverseSignal",
       Event.fill b1.time "OPEN" (some "SELL") exec3 (some p2) cfg.entry_slippage_bps 0
         (some b1.time) size2 "ReverseSignal"],
    side := some "SELL", entry_time := b1.time, entry_price := exec3, size := size2,
    stop := exec3 + cfg.stop_loss_pct * exec3, take := exec3 - cfg.take_profit_pct * exec3,
    best := exec3, pending_entry := none, pending_exit := none }

/-! ### Basic lemmas about the observation functions -/

theorem sumPnl_append (xs ys : List Trade) : sumPnl (xs ++ ys) = sumPnl xs + sumPnl ys := by
  simp [sumPnl]

theorem fillActions_append (xs ys : List Event) :
    fillActions (xs ++ ys) = fillActions xs ++ fillActions ys := by
  simp [fillActions]

theorem equityValues_append (xs ys : List Event) :
    equityValues (xs ++ ys) = equityValues xs ++ equityValues ys := by
  simp [equityValues]

theorem altOk_append (b : Bool) (xs ys : List String) :
    altOk b (xs ++ ys) = (altOk b xs && altOk (parityAfter b xs) ys) := by
  induction xs generalizing b with
  | nil => simp [altOk, parityAfter]
  | cons a xs ih =>
      cases b <;> simp [altOk, parityAfter, ih, Bool.and_assoc]

theorem parityAfter_append (b : Bool) (xs ys : List String) :
    parityAfter b (xs ++ ys) = parityAfter (parityAfter b xs) ys := by
  induction xs generalizing b with
  | nil => rfl
  | cons a xs ih => simp [parityAfter, ih]

theorem stepRel_same {t : Int} {st st' : EngineState} (h1 : st'.curve = st.curve)
    (h2 : st'.equity = st.equity) (h3 : st'.trades = st.trades) (h4 : st'.events = st.events)
    (h5 : st'.side = st.side) : StepRel t st st' := by
  refine ⟨h1, by rw [h2, h3], ⟨[], by simp [h3], by simp⟩,
    ⟨[], by simp [h4], by simp [equityValues], by simp [fillActions, altOk], ?_⟩⟩
  simp [fillActions, parityAfter, h5]

theorem stepRel_rfl {t : Int} {st : EngineState} : StepRel t st st :=
  stepRel_same rfl rfl rfl rfl rfl

theorem stepRel_trans {t : Int} {st st' st'' : EngineState} (h : StepRel t st st')
    (h' : StepRel t st' st'') : StepRel t st st'' := by
  obtain ⟨c1, e1, ⟨n1, tr1, ht1⟩, ⟨d1, ev1, q1, a1, p1⟩⟩ := h
  obtain ⟨c2, e2, ⟨n2, tr2, ht2⟩, ⟨d2, ev2, q2, a2, p2⟩⟩ := h'
  refine ⟨c2.trans c1, e2.trans e1, ⟨n1 ++ n2, by simp [tr2, tr1], ?_⟩,
    ⟨d1 ++ d2, by simp [ev2, ev1], by simp [equityValues_append, q1, q2], ?_, ?_⟩⟩
  · intro tr htr
    rcases List.mem_append.1 htr with h | h
    · exact ht1 tr h
    · exact ht2 tr h
  · rw [fillActions_append, altOk_append, a1, p1, a2]
    rfl
  · rw [fillActions_append, parityAfter_append, p1, p2]

/-- A sub-step that appends one non-fill, non-equity event and otherwise only touches
fields outside the `StepRel` footprint. -/
theorem stepRel_emit_update {t : Int} {st st' : EngineState} {ev : Event}
    (hf : fillActions [ev] = []) (he : equityValues [ev] = [])
    (h1 : st'.curve = st.curve) (h2 : st'.equity = st.equity) (h3 : st'.trades = st.trades)
    (h4 : st'.events = st.events ++ [ev]) (h5 : st'.side = st.side) : StepRel t st st' := by
  refine ⟨h1, by rw [h2, h3], ⟨[], by simp [h3], by simp⟩, ⟨[ev], h4, he, ?_, ?_⟩⟩
  · rw [hf]; simp [altOk]
  · rw [hf]; simp [parityAfter, h5]

theorem stepRel_close (cfg : BacktestConfig) {t : Int} {st : EngineState} {s : String}
    (hside : st.side = some s) (xp : ℚ) (r : String) (ip : Option ℚ) (sb : ℚ) (lb : Int)
    (sub : Option Int) : StepRel t st (close_pos cfg true st t xp r ip sb lb sub) := by
  simp only [close_pos, hside, emitE, if_true]
  refine ⟨rfl, ?_, ⟨_, rfl, ?_⟩, ⟨_, List.append_assoc _ _ _, ?_, ?_, ?_⟩⟩
  · simp only [sumPnl_append]
    simp [sumPnl]
    try ring
  · simp
  · simp [equityValues]
  · simp [fillActions, altOk, hside]
  · simp [fillActions, parityAfter, hside]

theorem stepRel_open (cfg : BacktestConfig) {t : Int} {st : EngineState}
    (hside : st.side = none) (ft : Int) (s : String) (xp eq : ℚ) (ip : Option ℚ) (sb : ℚ)
    (lb : Int) (sub : Option Int) (r : String) :
    StepRel t st (open_pos cfg true st ft s xp eq ip sb lb sub r) := by
  simp only [open_pos, emitE, if_true]
  refine ⟨rfl, rfl, ⟨[], by simp, by simp⟩, ⟨_, rfl, ?_, ?_, ?_⟩⟩
  · simp [equityValues]
  · simp [fillActions, altOk, hside]
  · simp [fillActions, parityAfter, hside]

theorem stepRel_pendingExitStep (cfg : BacktestConfig) (t : Int) (o : ℚ) (st : EngineState) :
    StepRel t st (pendingExitStep cfg true t o st) := by
  unfold pendingExitStep
  split
  · next pe s hpe hs =>
    split
    · exact stepRel_trans (stepRel_close cfg hs _ _ _ _ _ _)
        (stepRel_same rfl rfl rfl rfl rfl)
    · exact stepRel_same rfl rfl rfl rfl rfl
  · exact stepRel_rfl

theorem stepRel_pendingEntryStep (cfg : BacktestConfig) (t : Int) (o : ℚ) (st : EngineState) :
    StepRel t st (pendingEntryStep cfg true t o st) := by
  unfold pendingEntryStep
  split
  · next pe hpe hs =>
    split
    · exact stepRel_trans (stepRel_open cfg hs _ _ _ _ _ _ _ _ _)
        (stepRel_same rfl rfl rfl rfl rfl)
    · exact stepRel_same rfl rfl rfl rfl rfl
  · exact stepRel_rfl

theorem stepRel_handleSignal (cfg : BacktestConfig) (t : Int) (c : ℚ) (sig : Signal)
    (st : EngineState) : StepRel t st (handleSignal cfg true t c sig st) := by
  unfold handleSignal
  simp only [emitE, if_true]
  split
  · split
    · exact stepRel_emit_update (by simp [fillActions]) (by simp [equityValues])
        rfl rfl rfl rfl rfl
    · exact stepRel_emit_update (by simp [fillActions]) (by simp [equityValues])
        rfl rfl rfl rfl rfl
  · split
    · split <;> split <;>
        exact stepRel_emit_update (by simp [fillActions]) (by simp [equityValues])
          rfl rfl rfl rfl rfl
    · exact stepRel_emit_update (by simp [fillActions]) (by simp [equityValues])
        rfl rfl rfl rfl rfl

theorem stepRel_consumeSignals (cfg : BacktestConfig) (t : Int) (c : ℚ) :
    ∀ (sigs : List Signal) (st : EngineState),
      StepRel t st (consumeSignals cfg true t c sigs st).2
  | [], _ => stepRel_rfl
  | sig :: rest, st => by
    unfold consumeSignals
    split
    · exact stepRel_trans (stepRel_handleSignal cfg t c sig st)
        (stepRel_consumeSignals cfg t c rest _)
    · exact stepRel_rfl

theorem stepRel_exitChecks (cfg : BacktestConfig) (t : Int) (h l : ℚ) (st : EngineState) :
    StepRel t st (exitChecks cfg t h l st) := by
  unfold exitChecks
  split
  · dsimp only
    repeat' split
    all_goals exact stepRel_same rfl rfl rfl rfl rfl
  · exact stepRel_rfl

/-! ### Bar-level invariants -/

theorem processBar_snd (cfg : BacktestConfig) (sigs : List Signal) (st : EngineState)
    (i : Nat) (b : Bar) :
    (processBar cfg true (sigs, st) i b).2 =
      { barCore cfg sigs st i b with
        curve := (barCore cfg sigs st i b).curve ++ [(barCore cfg sigs st i b).equity],
        events := (barCore cfg sigs st i b).events ++
          [Event.equityEv b.time (barCore cfg sigs st i b).equity] } := by
  simp only [processBar, barCore, emitE, if_true]

theorem stepRel_barCore (cfg : BacktestConfig) (sigs : List Signal) (st : EngineState)
    (i : Nat) (b : Bar) : StepRel b.time st (barCore cfg sigs st i b) := by
  refine stepRel_trans
    (@stepRel_emit_update b.time st
      (emitE true st (Event.bar b.time i b.open_ b.high b.low b.close b.volume))
      (Event.bar b.time i b.open_ b.high b.low b.close b.volume)
      (by simp [fillActions]) (by simp [equityValues]) rfl rfl rfl (by simp [emitE]) rfl)
    (stepRel_trans (stepRel_pendingExitStep cfg b.time b.open_ _)
      (stepRel_trans (stepRel_pendingEntryStep cfg b.time b.open_ _)
        (stepRel_trans (stepRel_consumeSignals cfg b.time b.close sigs _)
          (stepRel_exitChecks cfg b.time b.high b.low _))))

theorem coreInv_init (cfg : BacktestConfig) : CoreInv cfg [] (initState cfg) := by
  refine ⟨rfl, by simp [initState, sumPnl], by simp [initState], ?_, ?_, ?_⟩ <;>
    simp [initState, fillActions, equityValues, altOk, parityAfter]

theorem coreInv_processBar {cfg : BacktestConfig} {done : List Bar} {st : EngineState}
    (inv : CoreInv cfg done st) (sigs : List Signal) (i : Nat) (b : Bar) :
    CoreInv cfg (done ++ [b]) (processBar cfg true (sigs, st) i b).2 := by
  obtain ⟨rc, re, ⟨new, ht, hnew⟩, ⟨ds, hev, hq, ha, hp⟩⟩ := stepRel_barCore cfg sigs st i b
  rw [processBar_snd]
  set stC := barCore cfg sigs st i b
  have hfe : fillActions [Event.equityEv b.time stC.equity] = [] := by simp [fillActions]
  constructor
  · simp [rc, inv.curve_len]
  · have h2 : stC.equity - sumPnl stC.trades = cfg.initial_equity := by
      rw [re, inv.eq_inv]; ring
    show stC.equity = cfg.initial_equity + sumPnl stC.trades
    linarith
  · show ∀ tr ∈ stC.trades, ∃ x ∈ done ++ [b], tr.exit_time = x.time
    rw [ht]
    intro tr htr
    rcases List.mem_append.1 htr with hmem | hmem
    · obtain ⟨x, hx, hxt⟩ := inv.trades_time tr hmem
      exact ⟨x, List.mem_append_left _ hx, hxt⟩
    · exact ⟨b, List.mem_append_right _ (List.mem_singleton_self b), hnew tr hmem⟩
  · show altOk false (fillActions (stC.events ++ [Event.equityEv b.time stC.equity])) = true
    rw [hev, fillActions_append, fillActions_append, hfe, List.append_nil, altOk_append,
      inv.alt, inv.parity, ha]
    rfl
  · show parityAfter false (fillActions (stC.events ++ [Event.equityEv b.time stC.equity]))
      = stC.side.isSome
    rw [hev, fillActions_append, fillActions_append, hfe, List.append_nil,
      parityAfter_append, inv.parity, hp]
  · show equityValues (stC.events ++ [Event.equityEv b.time stC.equity])
      = stC.curve ++ [stC.equity]
    rw [hev, equityValues_append, equityValues_append, inv.equity_vals, hq, rc]
    simp [equityValues]

theorem coreInv_runLoop (cfg : BacktestConfig) (rest : List Bar) :
    ∀ (done : List Bar) (sigs : List Signal) (k : Nat) (st : EngineState),
      CoreInv cfg done st →
      CoreInv cfg (done ++ rest) (runLoop cfg true sigs rest k st).2 := by
  induction rest with
  | nil => intro done sigs k st inv; simpa [runLoop] using inv
  | cons b rest ih =>
      intro done sigs k st inv
      have h2 := ih (done ++ [b]) (processBar cfg true (sigs, st) k b).1 (k + 1)
        (processBar cfg true (sigs, st) k b).2 (coreInv_processBar inv sigs k b)
      simp only [runLoop]
      simpa [List.append_assoc] using h2

/-- The core invariant at the end of the loop, for any run. -/
theorem coreInv_run (cfg : BacktestConfig) (bars : List Bar) (sigs : List Signal) (k : Nat) :
    CoreInv cfg bars (runLoop cfg true sigs bars k (initState cfg)).2 := by
  simpa using coreInv_runLoop cfg bars [] sigs k (initState cfg) (coreInv_init cfg)

theorem getD_concat_length {α : Type} (l : List α) (a d : α) :
    (l ++ [a]).getD l.length d = a := by
  rw [List.getD_append_right _ _ _ _ le_rfl]
  simp

theorem curveSpec_processBar {cfg : BacktestConfig} {done : List Bar} {st : EngineState}
    (core : CoreInv cfg done st) (spec : CurveSpec cfg done st) {b : Bar}
    (hmono : ∀ x ∈ done, x.time < b.time) (sigs : List Signal) (i : Nat) :
    CurveSpec cfg (done ++ [b]) (processBar cfg true (sigs, st) i b).2 := by
  obtain ⟨rc, re, ⟨new, ht, hnew⟩, -⟩ := stepRel_barCore cfg sigs st i b
  have core' := coreInv_processBar core sigs i b
  rw [processBar_snd] at core' ⊢
  set stC := barCore cfg sigs st i b
  intro j hj
  dsimp only
  simp only [List.length_append, List.length_singleton] at hj
  rcases Nat.lt_or_ge j done.length with hlt | hge
  · have hcl : j < stC.curve.length := by rw [rc, core.curve_len]; exact hlt
    rw [List.getD_append _ _ _ _ hcl, List.getD_append _ _ _ _ hlt]
    have hx : done.getD j default ∈ done := by
      rw [List.getD_eq_getElem _ _ hlt]; exact List.getElem_mem _
    have hfnew :
        new.filter (fun tr => decide (tr.exit_time ≤ (done.getD j default).time)) = [] := by
      rw [List.filter_eq_nil_iff]
      intro tr htr
      have h1 := hnew tr htr
      have h2 := hmono _ hx
      simp only [decide_eq_true_eq, not_le]
      omega
    calc stC.curve.getD j 0 = st.curve.getD j 0 := by rw [rc]
      _ = cfg.initial_equity + sumPnl (st.trades.filter fun tr =>
            decide (tr.exit_time ≤ (done.getD j default).time)) := spec j hlt
      _ = _ := by rw [ht, List.filter_append, hfnew, List.append_nil]
  · have hje : j = done.length := by omega
    subst hje
    have hb : (done ++ [b]).getD done.length default = b := by
      rw [List.getD_append_right _ _ _ _ le_rfl]
      simp
    rw [hb]
    have hcl : stC.curve.length = done.length := by rw [rc, core.curve_len]
    have hl : (stC.curve ++ [stC.equity]).getD done.length 0 = stC.equity := by
      rw [← hcl, getD_concat_length]
    rw [hl]
    have hall : stC.trades.filter (fun tr => decide (tr.exit_time ≤ b.time)) = stC.trades := by
      rw [List.filter_eq_self]
      intro tr htr
      have h3 : ∃ x ∈ done ++ [b], tr.exit_time = x.time := core'.trades_time tr htr
      obtain ⟨x, hx, hxt⟩ := h3
      rcases List.mem_append.1 hx with hx' | hx'
      · have := hmono x hx'
        simp only [decide_eq_true_eq]
        omega
      · have hxb : x = b := by simpa using hx'
        subst hxb
        simp [hxt]
    rw [hall]
    exact core'.eq_inv

theorem curveSpec_runLoop (cfg : BacktestConfig) (rest : List Bar) :
    ∀ (done : List Bar) (sigs : List Signal) (k : Nat) (st : EngineState),
      (done ++ rest).Pairwise (fun x y => x.time < y.time) →
      CoreInv cfg done st → CurveSpec cfg done st →
      CurveSpec cfg (done ++ rest) (runLoop cfg true sigs rest k st).2 := by
  induction rest with
  | nil => intro done sigs k st _ _ spec; simpa [runLoop] using spec
  | cons b rest ih =>
      intro done sigs k st hp core spec
      have hmono : ∀ x ∈ done, x.time < b.time := by
        rw [List.pairwise_append] at hp
        intro x hx
        exact hp.2.2 x hx b (List.mem_cons_self _ _)
      have hp' : ((done ++ [b]) ++ rest).Pairwise (fun x y => x.time < y.time) := by
        simpa [List.append_assoc] using hp
      have h2 := ih (done ++ [b]) (processBar cfg true (sigs, st) k b).1 (k + 1)
        (processBar cfg true (sigs, st) k b).2 hp' (coreInv_processBar core sigs k b)
        (curveSpec_processBar core spec hmono sigs k)
      simp only [runLoop]
      simpa [List.append_assoc] using h2

/-- The equity-continuity invariant at the end of the loop, for any run over a strictly
increasing bar series. -/
theorem curveSpec_run (cfg : BacktestConfig) (bars : List Bar) (sigs : List Signal) (k : Nat)
    (hmono : bars.Pairwise fun x y => x.time < y.time) :
    CurveSpec cfg bars (runLoop cfg true sigs bars k (initState cfg)).2 := by
  have h := curveSpec_runLoop cfg bars [] sigs k (initState cfg) (by simpa using hmono)
    (coreInv_init cfg) (by intro i hi; simp at hi)
  simpa using h

/-! ### Helpers for the end-of-data close -/

theorem getD_last {α : Type} [Inhabited α] (l : List α) (a : α) (hl : l.getLast? = some a) :
    l.getD (l.length - 1) default = a := by
  rw [List.getD_eq_getElem?_getD, ← List.getLast?_eq_getElem?, hl]
  rfl

theorem getElem_last {α : Type} (l : List α) (a : α) (hl : l.getLast? = some a)
    (h : l.length - 1 < l.length) : l[l.length - 1] = a := by
  have h1 : l[l.length - 1]? = some a := by
    rw [← List.getLast?_eq_getElem?]
    exact hl
  rw [List.getElem?_eq_getElem h] at h1
  exact Option.some.inj h1

theorem time_le_getLast {bars : List Bar} {lastBar : Bar}
    (hmono : bars.Pairwise fun x y => x.time < y.time) (hl : bars.getLast? = some lastBar) :
    ∀ x ∈ bars, x.time ≤ lastBar.time := by
  intro x hx
  obtain ⟨i, hi, hxe⟩ := List.mem_iff_getElem.1 hx
  have hlen : bars.length ≠ 0 := by
    intro h0
    rw [List.length_eq_zero] at h0
    subst h0
    simp at hl
  have hlenlt : bars.length - 1 < bars.length := by omega
  have hlast : bars[bars.length - 1] = lastBar :=
    getElem_last bars lastBar hl hlenlt
  rcases Nat.lt_or_ge i (bars.length - 1) with hlt | hge
  · have := List.pairwise_iff_getElem.1 hmono i (bars.length - 1) hi (by omega) hlt
    rw [hxe, hlast] at this
    exact le_of_lt this
  · have hie : i = bars.length - 1 := by omega
    subst hie
    rw [hxe] at hlast
    rw [hlast]

/-- Explicit form of `close_pos` on an open position. -/
theorem close_pos_spec (cfg : BacktestConfig) (st : EngineState) {s : String}
    (hside : st.side = some s) (ft : Int) (xp : ℚ) (r : String) (ip : Option ℚ) (sb : ℚ)
    (lb : Int) (sub : Option Int) :
    close_pos cfg true st ft xp r ip sb lb sub =
      { st with
        equity := st.equity + _pos_pnl s st.entry_price xp st.size,
        trades := st.trades ++ [⟨st.entry_time, s, st.entry_price, st.size, ft, xp,
          _pos_pnl s st.entry_price xp st.size, r⟩],
        events := st.events ++
          [Event.tradeClosed ft s st.entry_price xp st.size
            (_pos_pnl s st.entry_price xp st.size)
            (if st.equity + _pos_pnl s st.entry_price xp st.size = 0 then 0
             else _pos_pnl s st.entry_price xp st.size /
               (st.equity + _pos_pnl s st.entry_price xp st.size)) r,
           Event.fill ft "CLOSE" (some s) xp ip sb lb sub st.size r],
        side := none, entry_time := 0, entry_price := 0, size := 0, stop := 0, take := 0,
        best := 0 } := by
  simp [close_pos, hside, emitE]

/-! ### The signal-free tail of a reversal scenario -/

theorem close_ne_open : ¬ (("CLOSE" : String) = "OPEN") := by decide

theorem tailRel_rfl {st : EngineState} : TailRel st st :=
  fun h => ⟨h, [], by simp, rfl⟩

theorem tailRel_trans {st st' st'' : EngineState} (h : TailRel st st')
    (h' : TailRel st' st'') : TailRel st st'' := by
  intro hT
  obtain ⟨hT', ds1, he1, hr1⟩ := h hT
  obtain ⟨hT'', ds2, he2, hr2⟩ := h' hT'
  exact ⟨hT'', ds1 ++ ds2, by simp [he2, he1], by simp [hr1, hr2]⟩

theorem tailRel_emit (ev : Event) {st : EngineState} (hev : reducedReverse ev = none) :
    TailRel st (emitE true st ev) := by
  intro hT
  refine ⟨⟨hT.1, hT.2⟩, [ev], by simp [emitE], by simp [hev]⟩

theorem tailRel_pendingExitStep (cfg : BacktestConfig) (t : Int) (o : ℚ)
    (st : EngineState) : TailRel st (pendingExitStep cfg true t o st) := by
  intro hT
  unfold pendingExitStep
  split
  · next pe s hpe hs =>
    split
    · dsimp only
      rw [close_pos_spec cfg st hs]
      refine ⟨⟨hT.1, by simp⟩, _, rfl, ?_⟩
      have hr : pe.reason ≠ "ReverseSignal" := hT.2 pe hpe
      simp [reducedReverse, hr, close_ne_open]
    · refine ⟨⟨hT.1, ?_⟩, [], by simp, rfl⟩
      intro pe' hpe'
      have : pe' = { pe with remaining := pe.remaining - 1 } := (Option.some.inj hpe').symm
      rw [this]
      exact hT.2 pe hpe
  · exact ⟨hT, [], by simp, rfl⟩

theorem tailRel_pendingEntryStep (cfg : BacktestConfig) (t : Int) (o : ℚ)
    (st : EngineState) : TailRel st (pendingEntryStep cfg true t o st) := by
  intro hT
  unfold pendingEntryStep
  rw [hT.1]
  exact ⟨hT, [], by simp, rfl⟩

theorem tailRel_exitChecks (cfg : BacktestConfig) (t : Int) (h l : ℚ)
    (st : EngineState) : TailRel st (exitChecks cfg t h l st) := by
  intro hT
  unfold exitChecks
  split
  · next s hs hpe =>
    dsimp only
    repeat' split
    all_goals refine ⟨⟨hT.1, ?_⟩, [], by simp, rfl⟩
    all_goals intro pe' hpe'
    all_goals dsimp only at hpe'
    all_goals first
      | (injection hpe' with hh
         subst hh
         first
           | exact (by decide : ("StopLoss" : String) ≠ "ReverseSignal")
           | exact (by decide : ("TakeProfit" : String) ≠ "ReverseSignal")
           | exact (by decide : ("TrailingStop" : String) ≠ "ReverseSignal"))
      | (rw [hpe] at hpe'
         cases hpe')
  · exact ⟨hT, [], by simp, rfl⟩

theorem tailRel_processBar (cfg : BacktestConfig) (st : EngineState) (k : Nat) (b : Bar) :
    (processBar cfg true ([], st) k b).1 = [] ∧
    TailRel st (processBar cfg true ([], st) k b).2 := by
  constructor
  · simp [processBar, consumeSignals]
  · rw [processBar_snd]
    have hb : TailRel st (barCore cfg [] st k b) := by
      refine tailRel_trans
        (tailRel_emit (Event.bar b.time k b.open_ b.high b.low b.close b.volume)
          (by simp [reducedReverse]))
        (tailRel_trans (tailRel_pendingExitStep cfg b.time b.open_ _)
          (tailRel_trans (tailRel_pendingEntryStep cfg b.time b.open_ _) ?_))
      show TailRel _ (barCore cfg [] st k b)
      unfold barCore
      simp only [consumeSignals]
      exact tailRel_exitChecks cfg b.time b.high b.low _
    refine tailRel_trans hb ?_
    intro hT
    exact ⟨⟨hT.1, hT.2⟩, [Event.equityEv b.time (barCore cfg [] st k b).equity], by simp,
      by simp [reducedReverse]⟩

theorem tailRel_runLoop (cfg : BacktestConfig) (rest : List Bar) :
    ∀ (k : Nat) (st : EngineState), TailRel st (runLoop cfg true [] rest k st).2 := by
  induction rest with
  | nil => intro k st; exact tailRel_rfl
  | cons b rest ih =>
      intro k st
      obtain ⟨hfst, hrel⟩ := tailRel_processBar cfg st k b
      simp only [runLoop]
      rw [hfst]
      exact tailRel_trans hrel (ih (k + 1) _)

/-! ### Claim theorems -/

/-- Shared form of the single-position invariant: the fill word of any run's log
alternates OPEN/CLOSE starting from flat. -/
theorem altOk_backtest (bars : List Bar) (signals : List Signal) (cfg : BacktestConfig) :
    altOk false (fillActions (backtest_with_events bars signals cfg true).2.2) = true := by
  have core := coreInv_run cfg bars (sortSignals signals) 0
  unfold backtest_with_events
  dsimp only
  split
  · next s lastBar hside hlast =>
    rw [close_pos_spec cfg _ hside]
    simp only [emitE, eq_self_iff_true, if_true]
    rw [List.append_assoc, fillActions_append, altOk_append, core.alt, core.parity, hside]
    simp [fillActions, altOk, parityAfter]
  · exact core.alt

/-- C2: in every run of `backtest_with_events`, the OPEN/CLOSE fill events of the produced
log strictly alternate starting from flat (`altOk false`): an OPEN fill is only ever
emitted while no position is open, a CLOSE fill only while one is, so at no point do two
positions exist simultaneously and a Fill(OPEN) is never emitted over an open position. -/
theorem single_position_invariant (bars : List Bar) (signals : List Signal)
    (cfg : BacktestConfig) :
    altOk false (fillActions (backtest_with_events bars signals cfg true).2.2) = true :=
  altOk_backtest bars signals cfg

/-- All the trades recorded by the loop close at or before the last bar's time. -/
theorem trades_filter_last {cfg : BacktestConfig} {bars : List Bar} {st : EngineState}
    (core : CoreInv cfg bars st) {lastBar : Bar}
    (hmono : bars.Pairwise fun x y => x.time < y.time) (hl : bars.getLast? = some lastBar) :
    st.trades.filter (fun tr => decide (tr.exit_time ≤ lastBar.time)) = st.trades := by
  rw [List.filter_eq_self]
  intro tr htr
  obtain ⟨x, hx, hxt⟩ := core.trades_time tr htr
  have h2 := time_le_getLast hmono hl x hx
  simp only [decide_eq_true_eq]
  omega

/-- Explicit output of `backtest_with_events` when a position survives the last bar. -/
theorem backtest_eod (bars : List Bar) (signals : List Signal) (cfg : BacktestConfig)
    {s : String} {lastBar : Bar}
    (hside : (runLoop cfg true (sortSignals signals) bars 0 (initState cfg)).2.side = some s)
    (hlast : bars.getLast? = some lastBar) :
    backtest_with_events bars signals cfg true =
      ((runLoop cfg true (sortSignals signals) bars 0 (initState cfg)).2.trades ++
         [eodTrade cfg (runLoop cfg true (sortSignals signals) bars 0 (initState cfg)).2 s
            lastBar],
       (runLoop cfg true (sortSignals signals) bars 0 (initState cfg)).2.curve.dropLast ++
         [(runLoop cfg true (sortSignals signals) bars 0 (initState cfg)).2.equity +
            (eodTrade cfg (runLoop cfg true (sortSignals signals) bars 0 (initState cfg)).2 s
              lastBar).pnl],
       (runLoop cfg true (sortSignals signals) bars 0 (initState cfg)).2.events ++
         [Event.tradeClosed lastBar.time s
            (runLoop cfg true (sortSignals signals) bars 0 (initState cfg)).2.entry_price
            (eodTrade cfg (runLoop cfg true (sortSignals signals) bars 0 (initState cfg)).2 s
              lastBar).exit_price
            (runLoop cfg true (sortSignals signals) bars 0 (initState cfg)).2.size
            (eodTrade cfg (runLoop cfg true (sortSignals signals) bars 0 (initState cfg)).2 s
              lastBar).pnl
            (if (runLoop cfg true (sortSignals signals) bars 0 (initState cfg)).2.equity +
                  (eodTrade cfg
                    (runLoop cfg true (sortSignals signals) bars 0 (initState cfg)).2 s
                    lastBar).pnl = 0 then 0
             else (eodTrade cfg
                    (runLoop cfg true (sortSignals signals) bars 0 (initState cfg)).2 s
                    lastBar).pnl /
               ((runLoop cfg true (sortSignals signals) bars 0 (initState cfg)).2.equity +
                  (eodTrade cfg
                    (runLoop cfg true (sortSignals signals) bars 0 (initState cfg)).2 s
                    lastBar).pnl)) "EndOfData",
          Event.fill lastBar.time "CLOSE" (some s)
            (eodTrade cfg (runLoop cfg true (sortSignals signals) bars 0 (initState cfg)).2 s
              lastBar).exit_price
            (some lastBar.close) cfg.exit_slippage_bps 0 (some lastBar.time)
            (runLoop cfg true (sortSignals signals) bars 0 (initState cfg)).2.size
            "EndOfData",
          Event.equityEv lastBar.time
            ((runLoop cfg true (sortSignals signals) bars 0 (initState cfg)).2.equity +
               (eodTrade cfg (runLoop cfg true (sortSignals signals) bars 0 (initState cfg)).2
                 s lastBar).pnl)]) := by
  unfold backtest_with_events
  dsimp only
  split
  · next s' lastBar' hside' hlast' =>
    have hs : s' = s := by
      rw [hside] at hside'
      exact (Option.some.inj hside').symm
    have hlb : lastBar' = lastBar := by
      rw [hlast] at hlast'
      exact (Option.some.inj hlast').symm
    subst hs
    subst hlb
    rw [close_pos_spec cfg _ hside]
    simp only [emitE, eq_self_iff_true, if_true, eodTrade]
    simp [List.append_assoc]
  · next hno =>
    exact (hno s lastBar hside hlast).elim

/-- Explicit output of `backtest_with_events` when no position survives the loop. -/
theorem backtest_plain (bars : List Bar) (signals : List Signal) (cfg : BacktestConfig)
    (hside : (runLoop cfg true (sortSignals signals) bars 0 (initState cfg)).2.side = none) :
    backtest_with_events bars signals cfg true =
      ((runLoop cfg true (sortSignals signals) bars 0 (initState cfg)).2.trades,
       (runLoop cfg true (sortSignals signals) bars 0 (initState cfg)).2.curve,
       (runLoop cfg true (sortSignals signals) bars 0 (initState cfg)).2.events) := by
  unfold backtest_with_events
  dsimp only
  split
  · next s' lastBar' hside' hlast' =>
    rw [hside] at hside'
    cases hside'
  · rfl

/-- C1: for every run over strictly increasing bar timestamps, the equity curve has one
entry per bar, entry `i` equals the initial equity plus the pnl of all trades whose exit
fill happened at or before bar `i`'s time, and the last entry equals the initial equity
plus the pnl of all trades. -/
theorem equity_continuity (bars : List Bar) (signals : List Signal) (cfg : BacktestConfig)
    (hmono : bars.Pairwise fun x y => x.time < y.time) :
    (backtest_with_events bars signals cfg true).2.1.length = bars.length ∧
    (∀ i, i < bars.length →
      (backtest_with_events bars signals cfg true).2.1.getD i 0 =
        cfg.initial_equity + sumPnl ((backtest_with_events bars signals cfg true).1.filter
          fun tr => decide (tr.exit_time ≤ (bars.getD i default).time))) ∧
    (bars ≠ [] →
      (backtest_with_events bars signals cfg true).2.1.getD (bars.length - 1) 0 =
        cfg.initial_equity + sumPnl (backtest_with_events bars signals cfg true).1) := by
  have core := coreInv_run cfg bars (sortSignals signals) 0
  have spec := curveSpec_run cfg bars (sortSignals signals) 0 hmono
  have hij := List.pairwise_iff_getElem.1 hmono
  rcases hside : (runLoop cfg true (sortSignals signals) bars 0 (initState cfg)).2.side
    with _ | s
  · rw [backtest_plain bars signals cfg hside]
    refine ⟨core.curve_len, spec, ?_⟩
    intro hbne
    obtain ⟨lastBar, hlast⟩ : ∃ lb, bars.getLast? = some lb := by
      rcases hq : bars.getLast? with _ | lb
      · exact absurd (List.getLast?_eq_none_iff.1 hq) hbne
      · exact ⟨lb, rfl⟩
    have hlen1 : 1 ≤ bars.length := List.length_pos.2 hbne
    rw [spec (bars.length - 1) (by omega), getD_last bars lastBar hlast,
      trades_filter_last core hmono hlast]
  · rcases hlast : bars.getLast? with _ | lastBar
    · exfalso
      have hbe : bars = [] := List.getLast?_eq_none_iff.1 hlast
      subst hbe
      simp [runLoop, initState] at hside
    rw [backtest_eod bars signals cfg hside hlast]
    dsimp only
    set stL := (runLoop cfg true (sortSignals signals) bars 0 (initState cfg)).2 with hstL
    have hbne : bars ≠ [] := by
      intro h0
      subst h0
      simp at hlast
    have hlen1 : 1 ≤ bars.length := List.length_pos.2 hbne
    have hcl : stL.curve.length = bars.length := core.curve_len
    have hdl : stL.curve.dropLast.length = bars.length - 1 := by
      simp [List.length_dropLast, hcl]
    have hlenlt : bars.length - 1 < bars.length := by omega
    have hlast' : bars[bars.length - 1] = lastBar :=
      getElem_last bars lastBar hlast hlenlt
    have hexit : (eodTrade cfg stL s lastBar).exit_time = lastBar.time := rfl
    have hbd : bars.getD (bars.length - 1) default = lastBar := getD_last bars lastBar hlast
    have hfull : ([eodTrade cfg stL s lastBar]).filter
        (fun tr => decide (tr.exit_time ≤ lastBar.time)) = [eodTrade cfg stL s lastBar] := by
      rw [List.filter_eq_self]
      intro tr htr
      rw [List.mem_singleton.1 htr]
      simp [hexit]
    have hper : ∀ i, i < bars.length →
        (stL.curve.dropLast ++ [stL.equity + (eodTrade cfg stL s lastBar).pnl]).getD i 0 =
          cfg.initial_equity +
            sumPnl ((stL.trades ++ [eodTrade cfg stL s lastBar]).filter
              fun tr => decide (tr.exit_time ≤ (bars.getD i default).time)) := by
      intro i hi
      rcases Nat.lt_or_ge i (bars.length - 1) with hlt | hge
      · have hi1 : i < stL.curve.dropLast.length := by omega
        have hi2 : i < stL.curve.length := by omega
        have hstrict : (bars.getD i default).time < lastBar.time := by
          have h5 := hij i (bars.length - 1) hi (by omega) (by omega)
          rw [hlast'] at h5
          rw [List.getD_eq_getElem _ _ hi]
          exact h5
        have hfe : ([eodTrade cfg stL s lastBar]).filter
            (fun tr => decide (tr.exit_time ≤ (bars.getD i default).time)) = [] := by
          rw [List.filter_eq_nil_iff]
          intro tr htr
          rw [List.mem_singleton.1 htr]
          simp only [hexit, decide_eq_true_eq, not_le]
          exact hstrict
        rw [List.getD_append _ _ _ _ hi1]
        have hdrop : stL.curve.dropLast.getD i 0 = stL.curve.getD i 0 := by
          rw [List.getD_eq_getElem _ _ hi1, List.getD_eq_getElem _ _ hi2,
            List.getElem_dropLast]
        rw [hdrop, spec i hi, List.filter_append, hfe, List.append_nil]
      · have hie : i = bars.length - 1 := by omega
        subst hie
        have hgd : (stL.curve.dropLast ++
            [stL.equity + (eodTrade cfg stL s lastBar).pnl]).getD (bars.length - 1) 0 =
            stL.equity + (eodTrade cfg stL s lastBar).pnl := by
          rw [← hdl, getD_concat_length]
        rw [hgd, hbd, List.filter_append, trades_filter_last core hmono hlast, hfull,
          sumPnl_append, core.eq_inv]
        simp [sumPnl]
        try ring
    refine ⟨?_, hper, ?_⟩
    · simp only [List.length_append, List.length_singleton, hdl]
      omega
    · intro _
      rw [hper (bars.length - 1) (by omega), hbd, List.filter_append,
        trades_filter_last core hmono hlast, hfull]

/-- Witness for C1 at a concrete run: two bars at times 0 and 1, one BUY signal;
the last curve entry equals the initial equity plus the total pnl. -/
theorem equity_continuity_witness :
    ([flatBar 0 10, flatBar 1 11] : List Bar).Pairwise (fun x y => x.time < y.time) ∧
    ([flatBar 0 10, flatBar 1 11] : List Bar) ≠ [] ∧
    (backtest_with_events [flatBar 0 10, flatBar 1 11] [⟨0, "BUY", 10⟩]
      defaultCfg true).2.1.getD 1 0 =
      defaultCfg.initial_equity +
        sumPnl (backtest_with_events [flatBar 0 10, flatBar 1 11] [⟨0, "BUY", 10⟩]
          defaultCfg true).1 :=
  ⟨by decide, by decide,
    (equity_continuity [flatBar 0 10, flatBar 1 11] [⟨0, "BUY", 10⟩] defaultCfg
      (by decide)).2.2 (by decide)⟩

unseal Rat.inv Rat.mul Rat.add Rat.sub in
/-- C3 (evaluation at the failing input): with `entry_latency_bars = 1` and a single BUY
signal consumed at bar 0 (time 0), the only OPEN fill of the run is at time 2 — two bars
after the consumption bar, at bar 2's open price 12 — not one bar after, contradicting
the spec and the config's own comment ("1 = next bar open"). -/
theorem entry_latency_fill_two_bars_late :
    openFills (backtest_with_events
      [flatBar 0 10, flatBar 1 11, flatBar 2 12, flatBar 3 13]
      [⟨0, "BUY", 10⟩] { entry_latency_bars := 1 } true).2.2 = [(2, 12)] := by
  decide

unseal Rat.inv Rat.mul Rat.add Rat.sub in
/-- C4 counterexample: in a run whose position survives the last bar (two bars, one BUY
signal), the log carries three Equity events for two bars — the end-of-data close appends
a new Equity event instead of correcting the final one, leaving the stale per-bar value
100000 in place before the corrected 110000. -/
theorem eod_appends_duplicate_equity_event :
    (backtest_with_events [flatBar 0 10, flatBar 1 11] [⟨0, "BUY", 10⟩]
      defaultCfg true).2.1.length = 2 ∧
    equityValues (backtest_with_events [flatBar 0 10, flatBar 1 11] [⟨0, "BUY", 10⟩]
      defaultCfg true).2.2 = [100000, 100000, 110000] := by
  decide

unseal Rat.inv Rat.mul Rat.add Rat.sub in
/-- C6 counterexample: a signal with side "hold" is not rejected — the engine opens a
position whose side is the uppercased unknown string and returns a complete result (an
equity-curve entry per bar). -/
theorem unknown_side_not_rejected :
    openFillSides (backtest_with_events [flatBar 0 10, flatBar 1 11] [⟨0, "hold", 10⟩]
      defaultCfg true).2.2 = [some "HOLD"] ∧
    (backtest_with_events [flatBar 0 10, flatBar 1 11] [⟨0, "hold", 10⟩]
      defaultCfg true).2.1.length = 2 := by
  decide

/-- C6 (amended): an unrecognized side is accepted, not fatal: slippage and pnl fall into
their non-BUY ("SELL") branches for any side whose uppercasing is not "BUY", and the
engine always returns a complete result with one equity-curve entry per bar. -/
theorem unknown_side_amended :
    (∀ (price : ℚ) (s : String) (bps : ℚ), strUpper s ≠ "BUY" → 0 < bps →
      _apply_slippage price s bps = price * (1 - bps / 10000)) ∧
    (∀ (s : String) (e x sz : ℚ), s ≠ "BUY" → _pos_pnl s e x sz = (e - x) * sz) ∧
    (∀ (bars : List Bar) (signals : List Signal) (cfg : BacktestConfig),
      (backtest_with_events bars signals cfg true).2.1.length = bars.length) := by
  refine ⟨?_, ?_, ?_⟩
  · intro price s bps hs hb
    have hb' : ¬ bps ≤ 0 := not_le.2 hb
    simp [_apply_slippage, hb', hs]
  · intro s e x sz hs
    simp [_pos_pnl, hs]
  · intro bars signals cfg
    rcases hside : (runLoop cfg true (sortSignals signals) bars 0 (initState cfg)).2.side
      with _ | s
    · rw [backtest_plain bars signals cfg hside]
      exact (coreInv_run cfg bars (sortSignals signals) 0).curve_len
    · rcases hlast : bars.getLast? with _ | lastBar
      · exfalso
        have hbe : bars = [] := List.getLast?_eq_none_iff.1 hlast
        subst hbe
        simp [runLoop, initState] at hside
      · rw [backtest_eod bars signals cfg hside hlast]
        have hcl := (coreInv_run cfg bars (sortSignals signals) 0).curve_len
        have hbne : bars ≠ [] := by
          intro h0
          subst h0
          simp at hlast
        have hlen1 : 1 ≤ bars.length := List.length_pos.2 hbne
        dsimp only
        simp only [List.length_append, List.length_singleton, List.length_dropLast, hcl]
        omega

/-- Witness for C6 (amended) at concrete inputs. -/
theorem unknown_side_amended_witness :
    _apply_slippage 100 "hold" 5 = 100 * (1 - 5 / 10000) ∧
    _pos_pnl "HOLD" 10 7 2 = (10 - 7) * 2 :=
  ⟨(unknown_side_amended).1 100 "hold" 5 (by decide) (by norm_num),
   (unknown_side_amended).2.1 "HOLD" 10 7 2 (by decide)⟩

/-- C7: `_apply_slippage` is the identity for non-positive bps; for positive bps a BUY
action pays `price * (1 + bps/10000)` (strictly more than `price` when `price > 0`) and a
SELL action receives `price * (1 - bps/10000)` (strictly less). -/
theorem slippage_direction (price bps : ℚ) :
    (bps ≤ 0 → ∀ side : String, _apply_slippage price side bps = price) ∧
    (0 < bps → 0 < price →
      _apply_slippage price "BUY" bps = price * (1 + bps / 10000) ∧
      price < _apply_slippage price "BUY" bps ∧
      _apply_slippage price "SELL" bps = price * (1 - bps / 10000) ∧
      _apply_slippage price "SELL" bps < price) := by
  constructor
  · intro hb side
    simp [_apply_slippage, hb]
  · intro hb hp
    have hb' : ¬ bps ≤ 0 := not_le.2 hb
    have hbuy : strUpper "BUY" = "BUY" := by decide
    have hsell : strUpper "SELL" = "SELL" := by decide
    have h1 : _apply_slippage price "BUY" bps = price * (1 + bps / 10000) := by
      simp [_apply_slippage, hb', hbuy]
    have h2 : _apply_slippage price "SELL" bps = price * (1 - bps / 10000) := by
      simp [_apply_slippage, hb', hsell]
    refine ⟨h1, ?_, h2, ?_⟩
    · rw [h1]
      nlinarith
    · rw [h2]
      nlinarith

/-- Witness for C7 at price 100, bps 5 (and a no-op case at bps -5). -/
theorem slippage_direction_witness :
    _apply_slippage 100 "HOLD" (-5) = 100 ∧
    _apply_slippage 100 "BUY" 5 = 100 * (1 + 5 / 10000) ∧
    (100 : ℚ) < _apply_slippage 100 "BUY" 5 ∧
    _apply_slippage 100 "SELL" 5 = 100 * (1 - 5 / 10000) ∧
    _apply_slippage 100 "SELL" 5 < 100 :=
  ⟨(slippage_direction 100 (-5)).1 (by norm_num) "HOLD",
   ((slippage_direction 100 5).2 (by norm_num) (by norm_num)).1,
   ((slippage_direction 100 5).2 (by norm_num) (by norm_num)).2.1,
   ((slippage_direction 100 5).2 (by norm_num) (by norm_num)).2.2.1,
   ((slippage_direction 100 5).2 (by norm_num) (by norm_num)).2.2.2⟩

/-- C8: the position size is `equity * risk_per_trade / max (1e-9) (stop_loss_pct * price)`,
whose denominator is always strictly positive (the epsilon clamp), so degenerate sizing is
never a division by zero; the stop and take levels are the fill price minus/plus
`stop_loss_pct`/`take_profit_pct` times the fill price, with signs depending on the side. -/
theorem position_sizing (cfg : BacktestConfig) (eq price : ℚ) :
    _risk_size cfg eq price =
      (eq * cfg.risk_per_trade) / max (1 / 1000000000) (cfg.stop_loss_pct * price) ∧
    0 < max ((1 : ℚ) / 1000000000) (cfg.stop_loss_pct * price) ∧
    (∀ (em : Bool) (st : EngineState) (ft : Int) (s : String) (xp : ℚ) (ip : Option ℚ)
      (sb : ℚ) (lb : Int) (sub : Option Int) (r : String),
      (open_pos cfg em st ft s xp eq ip sb lb sub r).size = _risk_size cfg eq xp ∧
      (open_pos cfg em st ft s xp eq ip sb lb sub r).stop =
        (if s = "BUY" then xp - cfg.stop_loss_pct * xp else xp + cfg.stop_loss_pct * xp) ∧
      (open_pos cfg em st ft s xp eq ip sb lb sub r).take =
        (if s = "BUY" then xp + cfg.take_profit_pct * xp
         else xp - cfg.take_profit_pct * xp)) := by
  refine ⟨rfl, ?_, ?_⟩
  · have h9 : (0 : ℚ) < 1 / 1000000000 := by norm_num
    exact lt_max_iff.2 (Or.inl h9)
  · intro em st ft s xp ip sb lb sub r
    cases em <;> by_cases hs : s = "BUY" <;>
      simp [open_pos, emitE, hs]

/-- C9: `seek` clamps any integer index into `[0, max_index]` (cursor 0 on an empty list)
and never fails; `step n` is `seek (cursor + n)` with the same clamping. -/
theorem seek_clamps {α : Type} (events : List α) (cur index n : Int) :
    (events = [] →
      ((EventStream.mk events cur).seek index).cursor = 0 ∧
      ((EventStream.mk events cur).step n).cursor = 0) ∧
    (events ≠ [] →
      ((EventStream.mk events cur).seek index).cursor =
        max 0 (min index ((events.length : Int) - 1)) ∧
      0 ≤ ((EventStream.mk events cur).seek index).cursor ∧
      ((EventStream.mk events cur).seek index).cursor ≤ (events.length : Int) - 1 ∧
      ((EventStream.mk events cur).step n).cursor =
        max 0 (min (cur + n) ((events.length : Int) - 1))) := by
  constructor
  · intro he
    subst he
    constructor <;> simp [EventStream.seek, EventStream.step]
  · intro he
    have hne : events.isEmpty = false := List.isEmpty_eq_false.mpr he
    have hlen : 1 ≤ (events.length : Int) := by
      have := List.length_pos.2 he
      omega
    have hmax : (EventStream.mk events cur).max_index = (events.length : Int) - 1 := by
      simp only [EventStream.max_index]
      exact max_eq_right (by omega)
    refine ⟨?_, ?_, ?_, ?_⟩
    · simp [EventStream.seek, hne, hmax]
    · simp only [EventStream.seek, hne, Bool.false_eq_true, if_false, hmax]
      exact le_max_left 0 _
    · simp only [EventStream.seek, hne, Bool.false_eq_true, if_false, hmax]
      exact max_le (by omega) (min_le_right _ _)
    · simp [EventStream.step, EventStream.seek, hne, hmax]

/-- Witness for C9: clamping on an empty list, past-the-end, negative, and via `step`. -/
theorem seek_clamps_witness :
    ((EventStream.mk ([] : List Nat) 0).seek 5).cursor = 0 ∧
    ((EventStream.mk [10, 20, 30] 0).seek 7).cursor = 2 ∧
    ((EventStream.mk [10, 20, 30] 0).seek (-4)).cursor = 0 ∧
    ((EventStream.mk [10, 20, 30] 1).step 100).cursor = 2 := by
  refine ⟨((seek_clamps ([] : List Nat) 0 5 0).1 rfl).1, ?_, ?_, ?_⟩
  · have h := ((seek_clamps [10, 20, 30] 0 7 0).2 (by decide)).1
    rw [h]
    decide
  · have h := ((seek_clamps [10, 20, 30] 0 (-4) 0).2 (by decide)).1
    rw [h]
    decide
  · have h := ((seek_clamps [10, 20, 30] 1 0 100).2 (by decide)).2.2.2
    rw [h]
    decide

/-- C10: on a close, the TradeClosed event's `pnl_pct` is the trade's pnl divided by the
equity *after* the pnl has been added (the post-close equity), and 0 when that post-close
equity is exactly zero. -/
theorem pnl_pct_uses_post_close_equity (cfg : BacktestConfig) (st : EngineState)
    (s : String) (hside : st.side = some s) (ft : Int) (xp : ℚ) (r : String)
    (ip : Option ℚ) (sb : ℚ) (lb : Int) (sub : Option Int) :
    (close_pos cfg true st ft xp r ip sb lb sub).equity =
      st.equity + _pos_pnl s st.entry_price xp st.size ∧
    (close_pos cfg true st ft xp r ip sb lb sub).events =
      st.events ++
        [Event.tradeClosed ft s st.entry_price xp st.size
          (_pos_pnl s st.entry_price xp st.size)
          (if st.equity + _pos_pnl s st.entry_price xp st.size = 0 then 0
           else _pos_pnl s st.entry_price xp st.size /
             (st.equity + _pos_pnl s st.entry_price xp st.size)) r,
         Event.fill ft "CLOSE" (some s) xp ip sb lb sub st.size r] := by
  rw [close_pos_spec cfg st hside]
  exact ⟨rfl, rfl⟩

/-- Witness for C10: closing a BUY of size 2 entered at 10 with equity 100 at price 7
yields pnl -6 and pnl_pct -6/94 against the post-close equity 94. -/
theorem pnl_pct_uses_post_close_equity_witness :
    (close_pos defaultCfg true
      ⟨100, [], [], [], some "BUY", 0, 10, 2, 0, 0, 0, none, none⟩
      5 7 "StopLoss" none 0 0 none).equity = 94 := by
  have h := (pnl_pct_uses_post_close_equity defaultCfg
    ⟨100, [], [], [], some "BUY", 0, 10, 2, 0, 0, 0, none, none⟩ "BUY" rfl
    5 7 "StopLoss" none 0 0 none).1
  rw [h]
  norm_num [_pos_pnl]

/-- C4 (amended): when a position survives the last bar, the engine closes it at the last
bar's close with exit slippage applied and reason "EndOfData"; the equity curve keeps
exactly one entry per bar with its last entry equal to the post-close equity (initial
equity plus all pnl); and a final Equity event equal to the post-close equity is appended
to the log — so the log holds one Equity event per bar *plus one extra*, rather than
having its final Equity event corrected in place. -/
theorem eod_close_amended (bars : List Bar) (signals : List Signal) (cfg : BacktestConfig)
    (s : String) (lastBar : Bar)
    (hside : (runLoop cfg true (sortSignals signals) bars 0 (initState cfg)).2.side = some s)
    (hlast : bars.getLast? = some lastBar) :
    (backtest_with_events bars signals cfg true).1.getLast? =
      some (eodTrade cfg (runLoop cfg true (sortSignals signals) bars 0 (initState cfg)).2
        s lastBar) ∧
    (eodTrade cfg (runLoop cfg true (sortSignals signals) bars 0 (initState cfg)).2 s
      lastBar).reason = "EndOfData" ∧
    (eodTrade cfg (runLoop cfg true (sortSignals signals) bars 0 (initState cfg)).2 s
      lastBar).exit_time = lastBar.time ∧
    (eodTrade cfg (runLoop cfg true (sortSignals signals) bars 0 (initState cfg)).2 s
      lastBar).exit_price =
      _apply_slippage lastBar.close (if s = "BUY" then "SELL" else "BUY")
        cfg.exit_slippage_bps ∧
    (backtest_with_events bars signals cfg true).2.1.length = bars.length ∧
    (backtest_with_events bars signals cfg true).2.1.getLast? =
      some (cfg.initial_equity + sumPnl (backtest_with_events bars signals cfg true).1) ∧
    (equityValues (backtest_with_events bars signals cfg true).2.2).length =
      bars.length + 1 ∧
    (equityValues (backtest_with_events bars signals cfg true).2.2).getLast? =
      some (cfg.initial_equity + sumPnl (backtest_with_events bars signals cfg true).1) := by
  have core := coreInv_run cfg bars (sortSignals signals) 0
  rw [backtest_eod bars signals cfg hside hlast]
  dsimp only
  set stL := (runLoop cfg true (sortSignals signals) bars 0 (initState cfg)).2
  have hbne : bars ≠ [] := by
    intro h0
    subst h0
    simp at hlast
  have hlen1 : 1 ≤ bars.length := List.length_pos.2 hbne
  have hcl : stL.curve.length = bars.length := core.curve_len
  have heqf : stL.equity + (eodTrade cfg stL s lastBar).pnl =
      cfg.initial_equity + sumPnl (stL.trades ++ [eodTrade cfg stL s lastBar]) := by
    rw [sumPnl_append, core.eq_inv]
    simp [sumPnl]
    try ring
  refine ⟨List.getLast?_concat _, rfl, rfl, rfl, ?_, ?_, ?_, ?_⟩
  · simp only [List.length_append, List.length_singleton, List.length_dropLast, hcl]
    omega
  · rw [List.getLast?_concat, heqf]
  · rw [equityValues_append, core.equity_vals]
    simp only [equityValues, List.filterMap_cons, List.filterMap_nil]
    simp [hcl]
  · rw [equityValues_append, core.equity_vals]
    simp only [equityValues, List.filterMap_cons, List.filterMap_nil]
    simp only [List.getLast?_concat]
    rw [heqf]

unseal Rat.inv Rat.mul Rat.add Rat.sub in
/-- Witness for C4 (amended) at a concrete run whose position survives the last bar. -/
theorem eod_close_amended_witness :
    (equityValues (backtest_with_events [flatBar 0 10, flatBar 1 11] [⟨0, "BUY", 10⟩]
      defaultCfg true).2.2).length = 2 + 1 := by
  have h := eod_close_amended [flatBar 0 10, flatBar 1 11] [⟨0, "BUY", 10⟩] defaultCfg
    "BUY" (flatBar 1 11) (by decide) (by decide)
  have h2 := h.2.2.2.2.2.2.1
  simpa using h2

unseal Rat.inv Rat.mul Rat.add Rat.sub in
/-- C5 counterexample: BUY at bar 0, opposite SELL consumed at the *last* bar (bar 1)
while the position is open, `allow_reverse` on, zero latencies. The claim's premise holds
(the fills show an open position, the Signal events show the SELL was consumed), yet the
log contains no TradeClosed with reason "ReverseSignal" and no SELL OPEN fill at all —
the run ends with an EndOfData close instead. -/
theorem reversal_on_last_bar_not_executed :
    (backtest_with_events [flatBar 0 10, flatBar 1 10] [⟨0, "BUY", 10⟩, ⟨1, "SELL", 10⟩]
      defaultCfg true).2.2.filterMap reducedReverse = [] ∧
    tradeClosedReasons (backtest_with_events [flatBar 0 10, flatBar 1 10]
      [⟨0, "BUY", 10⟩, ⟨1, "SELL", 10⟩] defaultCfg true).2.2 = ["EndOfData"] ∧
    signalSides (backtest_with_events [flatBar 0 10, flatBar 1 10]
      [⟨0, "BUY", 10⟩, ⟨1, "SELL", 10⟩] defaultCfg true).2.2 = ["BUY", "SELL"] ∧
    fillActions (backtest_with_events [flatBar 0 10, flatBar 1 10]
      [⟨0, "BUY", 10⟩, ⟨1, "SELL", 10⟩] defaultCfg true).2.2 = ["OPEN", "CLOSE"] := by
  decide

theorem revStep0 (b0 b1 : Bar) (ta : Int) (p1 p2 : ℚ) (cfg : BacktestConfig)
    (hel : cfg.entry_latency_bars = 0) (hta : ta ≤ b0.time)
    (hne : ¬ (b1.time ≤ b0.time)) :
    processBar cfg true ([⟨ta, "BUY", p1⟩, ⟨b1.time, "SELL", p2⟩], initState cfg) 0 b0 =
      ([⟨b1.time, "SELL", p2⟩], revST1 b0 ta p1 cfg) := by
  have hbuy : strUpper "BUY" = "BUY" := by decide
  simp [processBar, emitE, pendingExitStep, pendingEntryStep, consumeSignals, handleSignal,
    exitChecks, initState, revST1, hta, hne, hbuy, hel]

theorem revStep1 (b0 b1 : Bar) (ta : Int) (p1 p2 : ℚ) (cfg : BacktestConfig)
    (har : cfg.allow_reverse = true) (hel : cfg.entry_latency_bars = 0)
    (hxl : cfg.exit_latency_bars = 0) :
    processBar cfg true ([⟨b1.time, "SELL", p2⟩], revST1 b0 ta p1 cfg) 1 b1 =
      ([], revST2 b0 b1 ta p1 p2 cfg) := by
  have hbuy : strUpper "BUY" = "BUY" := by decide
  have hsell : strUpper "SELL" = "SELL" := by decide
  have hbs : ¬ (("BUY" : String) = "SELL") := by decide
  simp [processBar, emitE, pendingExitStep, pendingEntryStep, consumeSignals, handleSignal,
    exitChecks, open_pos, revST1, revST2, hbuy, hsell, hbs, har, hel, hxl]

theorem revStep2 (b0 b1 b2 : Bar) (ta : Int) (p1 p2 : ℚ) (cfg : BacktestConfig) :
    pendingEntryStep cfg true b2.time b2.open_
      (pendingExitStep cfg true b2.time b2.open_
        (emitE true (revST2 b0 b1 ta p1 p2 cfg)
          (Event.bar b2.time 2 b2.open_ b2.high b2.low b2.close b2.volume))) =
      revMID2 b0 b1 b2 ta p1 p2 cfg := by
  have hsb : ¬ (("SELL" : String) = "BUY") := by decide
  simp [emitE, pendingExitStep, pendingEntryStep, close_pos, open_pos, revST1, revST2,
    revMID2, hsb]

theorem revBarCore (b0 b1 b2 : Bar) (ta : Int) (p1 p2 : ℚ) (cfg : BacktestConfig) :
    barCore cfg [] (revST2 b0 b1 ta p1 p2 cfg) 2 b2 =
      exitChecks cfg b2.time b2.high b2.low (revMID2 b0 b1 b2 ta p1 p2 cfg) := by
  unfold barCore
  simp only [consumeSignals]
  rw [revStep2 b0 b1 b2 ta p1 p2 cfg]

theorem revMID2_tailInv (b0 b1 b2 : Bar) (ta : Int) (p1 p2 : ℚ) (cfg : BacktestConfig) :
    TailInv (revMID2 b0 b1 b2 ta p1 p2 cfg) := by
  refine ⟨rfl, ?_⟩
  intro pe hpe
  simp [revMID2] at hpe

theorem revMID2_reduced (b0 b1 b2 : Bar) (ta : Int) (p1 p2 : ℚ) (cfg : BacktestConfig) :
    (revMID2 b0 b1 b2 ta p1 p2 cfg).events.filterMap reducedReverse = ["RC", "OS"] := by
  have hbs : ¬ (("BUY" : String) = "SELL") := by decide
  simp [revMID2, revST2, revST1, reducedReverse, hbs, close_ne_open]

/-- C5 (amended): in the reversal scenario — a BUY signal consumed at bar 0 while flat,
the opposite SELL signal consumed at bar 1 while the position opened at bar 1 is live,
`allow_reverse` on, zero entry/exit latency, and at least one bar after bar 1 — the log
contains exactly one TradeClosed with reason "ReverseSignal" and exactly one SELL OPEN
fill, in that order (the reversal alphabet of the log is exactly `["RC", "OS"]`); the
fill word of the whole log still alternates OPEN/CLOSE from flat, so no interleaving ever
leaves two positions open; and a signal consumed while both a pending exit and a pending
entry are already scheduled changes neither slot (a reversal schedules each side at most
once per occurrence). -/
theorem reversal_scenario_amended (b0 b1 b2 : Bar) (rest : List Bar)
    (ta : Int) (p1 p2 : ℚ) (cfg : BacktestConfig)
    (har : cfg.allow_reverse = true) (hel : cfg.entry_latency_bars = 0)
    (hxl : cfg.exit_latency_bars = 0) (hta : ta ≤ b0.time) (ht01 : b0.time < b1.time) :
    ((backtest_with_events (b0 :: b1 :: b2 :: rest)
        [⟨ta, "BUY", p1⟩, ⟨b1.time, "SELL", p2⟩] cfg true).2.2.filterMap reducedReverse =
      ["RC", "OS"]) ∧
    altOk false (fillActions (backtest_with_events (b0 :: b1 :: b2 :: rest)
      [⟨ta, "BUY", p1⟩, ⟨b1.time, "SELL", p2⟩] cfg true).2.2) = true ∧
    (∀ (t : Int) (c : ℚ) (sig : Signal) (st : EngineState) (pe : PendingExit)
      (pen : PendingEntry), st.pending_exit = some pe → st.pending_entry = some pen →
      (handleSignal cfg true t c sig st).pending_exit = some pe ∧
      (handleSignal cfg true t c sig st).pending_entry = some pen) := by
  have hne : ¬ (b1.time ≤ b0.time) := not_le.2 ht01
  have hta1 : ta ≤ b1.time := le_of_lt (lt_of_le_of_lt hta ht01)
  have hsort : sortSignals [⟨ta, "BUY", p1⟩, ⟨b1.time, "SELL", p2⟩] =
      [⟨ta, "BUY", p1⟩, ⟨b1.time, "SELL", p2⟩] := by
    simp [sortSignals, insertSignal, hta1]
  have hU : runLoop cfg true [⟨ta, "BUY", p1⟩, ⟨b1.time, "SELL", p2⟩]
      (b0 :: b1 :: b2 :: rest) 0 (initState cfg) =
      runLoop cfg true [] rest 3
        (processBar cfg true ([], revST2 b0 b1 ta p1 p2 cfg) 2 b2).2 := by
    simp only [runLoop]
    rw [revStep0 b0 b1 ta p1 p2 cfg hel hta hne]
    dsimp only
    rw [revStep1 b0 b1 ta p1 p2 cfg har hel hxl]
    dsimp only
    rw [(tailRel_processBar cfg (revST2 b0 b1 ta p1 p2 cfg) 2 b2).1]
  set P2 := (processBar cfg true ([], revST2 b0 b1 ta p1 p2 cfg) 2 b2).2 with hP2def
  have hrel : TailRel (revMID2 b0 b1 b2 ta p1 p2 cfg) P2 := by
    refine tailRel_trans
      (tailRel_exitChecks cfg b2.time b2.high b2.low (revMID2 b0 b1 b2 ta p1 p2 cfg)) ?_
    rw [hP2def, processBar_snd, revBarCore b0 b1 b2 ta p1 p2 cfg]
    intro hT
    exact ⟨⟨hT.1, hT.2⟩, _, rfl, by simp [reducedReverse]⟩
  have hrel2 : TailRel (revMID2 b0 b1 b2 ta p1 p2 cfg)
      (runLoop cfg true [] rest 3 P2).2 :=
    tailRel_trans hrel (tailRel_runLoop cfg rest 3 P2)
  obtain ⟨hTfin, ds, hevfin, hdsred⟩ := hrel2 (revMID2_tailInv b0 b1 b2 ta p1 p2 cfg)
  refine ⟨?_, altOk_backtest _ _ _, ?_⟩
  · rcases hq : (runLoop cfg true [] rest 3 P2).2.side with _ | s
    · have hside' : (runLoop cfg true
          (sortSignals [⟨ta, "BUY", p1⟩, ⟨b1.time, "SELL", p2⟩])
          (b0 :: b1 :: b2 :: rest) 0 (initState cfg)).2.side = none := by
        rw [hsort, hU]
        exact hq
      rw [backtest_plain _ _ _ hside']
      dsimp only
      rw [hsort, hU, hevfin, List.filterMap_append,
        revMID2_reduced b0 b1 b2 ta p1 p2 cfg, hdsred]
      simp
    · have hside' : (runLoop cfg true
          (sortSignals [⟨ta, "BUY", p1⟩, ⟨b1.time, "SELL", p2⟩])
          (b0 :: b1 :: b2 :: rest) 0 (initState cfg)).2.side = some s := by
        rw [hsort, hU]
        exact hq
      obtain ⟨lastBar, hlast⟩ : ∃ lb, (b0 :: b1 :: b2 :: rest).getLast? = some lb := by
        rcases hg : (b0 :: b1 :: b2 :: rest).getLast? with _ | lb
        · rw [List.getLast?_eq_none_iff] at hg
          cases hg
        · exact ⟨lb, rfl⟩
      rw [backtest_eod _ _ _ hside' hlast]
      dsimp only
      rw [hsort, hU, hevfin, List.filterMap_append, List.filterMap_append,
        revMID2_reduced b0 b1 b2 ta p1 p2 cfg, hdsred]
      have hEodNe : ¬ (("EndOfData" : String) = "ReverseSignal") := by decide
      simp [reducedReverse, close_ne_open, hEodNe]
  · intro t c sig st pe pen hpe hpen
    rcases hs : st.side with _ | s <;>
      simp [handleSignal, emitE, hs, hpe, hpen]

/-- Witness for C5 (amended) at a concrete reversal run over four bars. -/
theorem reversal_scenario_amended_witness :
    (backtest_with_events
      [flatBar 0 10, flatBar 1 11, flatBar 2 12, flatBar 3 13]
      [⟨0, "BUY", 10⟩, ⟨1, "SELL", 11⟩] defaultCfg true).2.2.filterMap reducedReverse =
      ["RC", "OS"] := by
  have h := reversal_scenario_amended (flatBar 0 10) (flatBar 1 11) (flatBar 2 12)
    [flatBar 3 13] 0 10 11 defaultCfg rfl rfl rfl (by decide) (by decide)
  exact h.1

end TradingBacktester
